import Mathlib

/-!
Verification of the NurdViewer signaling relay and negotiation handshake.

The Python sources (`signaling_server.py`, `sender.py`, `receiver.py`,
`video_consumer.py`) are shallowly embedded below.  Strings are modelled as
`List Char`; machine-level and transport-level behaviour (the aiortc engine,
the OS sockets) is abstracted as function parameters, matching the spec's
stance that the media-transport engine is an external collaborator.
-/

namespace NurdViewer

/-! ## Text utilities: Python `str.splitlines` and `"\r\n".join`

`receiver.py` line 17 uses `sdp.splitlines()`; line 27 uses
`"\r\n".join(new_lines)`.  Python's `splitlines` treats `\r\n` as a single
boundary and otherwise splits at any character in its line-boundary set; a
trailing boundary does not produce a trailing empty line. -/

/-- Python line-boundary characters (the set used by `str.splitlines`). -/
def isLineBreak (c : Char) : Bool :=
  c = '\n' || c = '\r' || c = '\x0b' || c = '\x0c' ||
  c = '\x1c' || c = '\x1d' || c = '\x1e' || c = '\x85' ||
  c = '\u2028' || c = '\u2029'

/-- Collapse each two-character `"\r\n"` boundary into a single `'\n'`, so
that the remaining split can treat every boundary as one character.  This
realizes the `str.splitlines` rule that `"\r\n"` counts as one boundary. -/
def normCRLF : List Char → List Char
  | [] => []
  | [c] => [c]
  | c :: c2 :: rest =>
    if c = '\r' && c2 = '\n' then '\n' :: normCRLF rest
    else c :: normCRLF (c2 :: rest)

/-- Split at every single-character line boundary; `acc` holds the current
line, reversed.  A trailing boundary yields no trailing empty line. -/
def splitSingle : List Char → List Char → List (List Char)
  | [], acc => if acc.isEmpty then [] else [acc.reverse]
  | c :: rest, acc =>
    if isLineBreak c then acc.reverse :: splitSingle rest []
    else splitSingle rest (c :: acc)

/-- Python `s.splitlines()` on a character list. -/
def splitlinesPy (s : List Char) : List (List Char) :=
  splitSingle (normCRLF s) []

/-- Python `"\r\n".join(lines)` on character lists. -/
def joinCRLF : List (List Char) → List Char
  | [] => []
  | [l] => l
  | l :: l2 :: rest => l ++ '\r' :: '\n' :: joinCRLF (l2 :: rest)

/-- Worker for Python's `in` on strings: list-prefix test. -/
def isPrefixC : List Char → List Char → Bool
  | [], _ => true
  | _ :: _, [] => false
  | a :: as, b :: bs => a == b && isPrefixC as bs

/-- Python `pat in s` substring containment on character lists. -/
def containsSub (pat : List Char) : List Char → Bool
  | [] => isPrefixC pat []
  | c :: rest => isPrefixC pat (c :: rest) || containsSub pat rest

/-! ## The SDP compatibility filter (`receiver.py`, `remove_rtx_from_sdp`) -/

/-- The substring `"video/rtx"` tested by `receiver.py` line 21. -/
def rtxPat : List Char := "video/rtx".toList

/-- The substring `"apt="` tested by `receiver.py` line 21. -/
def aptPat : List Char := "apt=".toList

/-- The drop test of `receiver.py` line 21:
`if "video/rtx" in line or "apt=" in line: continue`. -/
def rtxRelated (line : List Char) : Bool :=
  containsSub rtxPat line || containsSub aptPat line

/-- The `new_lines` list built by the loop in `receiver.py` lines 19-26:
every line of the input that does not match the drop test, in order. -/
def keptLines (sdp : List Char) : List (List Char) :=
  (splitlinesPy sdp).filter (fun line => !(rtxRelated line))

/-- `receiver.py` lines 10-30: split the SDP into lines, drop every line
containing `"video/rtx"` or `"apt="`, and rejoin with `"\r\n"`. -/
def remove_rtx_from_sdp (sdp : List Char) : List Char :=
  joinCRLF (keptLines sdp)

/-! ## The relay room registry (`signaling_server.py`)

`rooms: Dict[str, List[WebSocket]]` maps a room id to the list of connected
channels.  The claims below concern a single room, so the state of one room
is modelled as `Option (List Nat)`: `none` means the key is absent from the
dictionary, `some l` means the key maps to the list `l`.  Channels are
modelled as natural numbers; Python's `!=` on `WebSocket` objects is
identity, i.e. `≠` on these labels. -/

/-- A join or leave of one channel on one room. -/
inductive Op
  | join (c : Nat)
  | leave (c : Nat)
deriving DecidableEq, Repr

/-- `signaling_server.py` lines 22-28: on connect, create the room's entry
if absent (`rooms[room_id] = []`) and append the channel. -/
def joinOp (c : Nat) (st : Option (List Nat)) : Option (List Nat) :=
  some (st.getD [] ++ [c])

/-- `signaling_server.py` lines 53-61 (the `finally` block): remove the
channel if present (`if websocket in rooms.get(room_id, []):
rooms[room_id].remove(websocket)`), then delete the room if its entry is
now empty or absent (`if not rooms.get(room_id): del rooms[room_id]` —
note that when the key is absent, `del` raises `KeyError`, modelled as
`.error ()`). -/
def leaveOp (c : Nat) (st : Option (List Nat)) : Except Unit (Option (List Nat)) :=
  match st with
  | none => .error ()
  | some l =>
    let l2 := if l.contains c then l.erase c else l
    if l2.isEmpty then .ok none else .ok (some l2)

/-- Run a sequence of join/leave operations on one room's registry state. -/
def runOps : List Op → Option (List Nat) → Except Unit (Option (List Nat))
  | [], st => .ok st
  | .join c :: rest, st => runOps rest (joinOp c st)
  | .leave c :: rest, st =>
    match leaveOp c st with
    | .error e => .error e
    | .ok st2 => runOps rest st2

/-- The list of channels still joined after a sequence of operations,
starting from the joined-in-order list `live`. -/
def survivors : List Op → List Nat → List Nat
  | [], live => live
  | .join c :: rest, live => survivors rest (live ++ [c])
  | .leave c :: rest, live => survivors rest (live.erase c)

/-- Well-formed operation sequences: every leave is of a currently joined
channel, and no channel ever joins twice (`used` collects every channel
that has ever joined; each connection handler joins its fresh channel
exactly once).  This is the protocol the endpoint handlers follow. -/
def wfOps : List Op → List Nat → List Nat → Bool
  | [], _, _ => true
  | .join c :: rest, live, used =>
    !(used.contains c) && wfOps rest (live ++ [c]) (c :: used)
  | .leave c :: rest, live, used =>
    live.contains c && wfOps rest (live.erase c) used

/-- The registry state corresponding to a live-member list: absent when no
members remain, otherwise present with exactly those members. -/
def stateOf (live : List Nat) : Option (List Nat) :=
  if live.isEmpty then none else some live

/-! ## The relay broadcast loop (`signaling_server.py` lines 40-46)

`for connection in rooms[room_id]: if connection != websocket: await
connection.send_text(data)`.  The sends happen one after another inside the
endpoint's `try`; `ok c` tells whether the send to channel `c` succeeds.  A
failing send raises, which aborts the `for` loop (the exception propagates
to the handler's `except` clause), so members after the failing one receive
nothing.  The result is the list of channels that received the message and
whether the loop completed. -/

def deliverLoop (members : List Nat) (senderCh : Nat) (ok : Nat → Bool) :
    List Nat × Bool :=
  match members with
  | [] => ([], true)
  | c :: rest =>
    if c = senderCh then deliverLoop rest senderCh ok
    else if ok c then
      let r := deliverLoop rest senderCh ok
      (c :: r.1, r.2)
    else ([], false)

/-! ## Exit paths of the relay connection handler (`signaling_server.py`)

The read loop (`while True: ... await websocket.receive_text() ...`) only
terminates by an exception: a graceful close raises `WebSocketDisconnect`
(caught at line 47), any other error raises `Exception` (caught at line
50), and task cancellation raises `CancelledError`, which is a
`BaseException` and is caught by neither clause.  In every case Python runs
the `finally` block (the leave code) exactly once before the handler
returns or re-raises. -/

/-- The three ways the relay handler's read loop terminates. -/
inductive Exc
  | disconnect
  | error
  | cancelled
deriving DecidableEq, Repr

/-- Which loop exceptions the handler's `except` clauses catch:
`WebSocketDisconnect` and `Exception` are caught, `CancelledError` is not
(it is a `BaseException`) and is re-raised after the `finally` block. -/
def catchesExc : Exc → Bool
  | .disconnect => true
  | .error => true
  | .cancelled => false

/-- How many removal operations the `finally` block performs on the room
state: one when the channel is a member, zero otherwise. -/
def leaveCount (c : Nat) (st : Option (List Nat)) : Nat :=
  if c ∈ st.getD [] then 1 else 0

/-- The handler's termination behaviour (`signaling_server.py` lines
31-61): whatever exception `e` ends the read loop, the `finally` block runs
the leave code once; the handler then swallows `e` if an `except` clause
caught it and re-raises it otherwise.  Returns the room state after
cleanup, the number of removals performed, and the re-raised exception. -/
def websocket_endpoint_exit (c : Nat) (st : Option (List Nat)) (e : Exc) :
    Except Unit ((Option (List Nat)) × Nat × Option Exc) :=
  match leaveOp c st with
  | .error u => .error u
  | .ok st2 => .ok (st2, leaveCount c st, if catchesExc e then none else some e)

/-! ## Signaling messages and the two peer state machines

A wire message is UTF-8 text; `json.loads` either fails (`malformed`) or
yields an object, of which the peers only ever read the `"type"` and
`"sdp"` fields (`data.get("type")`, `data["sdp"]`).  Other fields are
ignored by both peers, so an object is modelled by those two optional
fields. -/

/-- An inbound signaling message as seen after `json.loads`. -/
inductive JsonMsg
  | malformed
  | obj (type? : Option (List Char)) (sdp? : Option (List Char))
deriving DecidableEq, Repr

/-- The string `"offer"`. -/
def offerStr : List Char := "offer".toList

/-- The string `"answer"`. -/
def answerStr : List Char := "answer".toList

/-- `data.get("type")` of a message (`none` for malformed JSON). -/
def msgType : JsonMsg → Option (List Char)
  | .malformed => none
  | .obj t _ => t

/-- Outcome of the responder's `run` (`receiver.py` lines 33-114): either
the session ends without an answer (early `return` on a non-offer type, or
the outer `except` catching `json.JSONDecodeError` / `KeyError`), or the
responder installs the filtered offer as remote description and sends its
answer. -/
inductive ReceiverResult
  | failed
  | answered (remote : List Char) (sent : List Char)
deriving DecidableEq, Repr

/-- `receiver.py` lines 42-75, one inbound message: malformed JSON raises
out of `run` (caught at line 116 → session over); a `type` other than
`"offer"` returns at line 50; a missing `"sdp"` raises `KeyError` (line
54) out of `run`; otherwise the offer SDP is filtered, installed as the
remote description, and the locally created answer SDP is sent back.
`createAnswer` abstracts the external transport capability
(`pc.createAnswer` + `pc.setLocalDescription`): it maps the installed
remote description to the local answer SDP. -/
def receiverRun (msg : JsonMsg) (createAnswer : List Char → List Char) :
    ReceiverResult :=
  match msg with
  | .malformed => .failed
  | .obj t sdp? =>
    if t = some offerStr then
      match sdp? with
      | none => .failed
      | some sdp =>
        let filtered := remove_rtx_from_sdp sdp
        .answered filtered (createAnswer filtered)
    else .failed

/-- Outcome of the initiator's read loop (`sender.py` lines 85-106): either
the message stream ends without a usable answer, or the loop installs an
answer SDP as the remote description, `break`s, and leaves the remaining
messages unread. -/
inductive SenderOutcome
  | exhausted
  | connected (remote : List Char) (leftover : List JsonMsg)
deriving DecidableEq, Repr

/-- `sender.py` lines 85-103 (`async for message in websocket`): malformed
JSON is caught by `except json.JSONDecodeError` and the loop continues; a
message whose `type` is not `"answer"` matches no branch and the loop
continues; `type == "answer"` with a missing `"sdp"` raises `KeyError`
into the loop's `except Exception`, and the loop continues; `type ==
"answer"` with an `"sdp"` installs it as the remote description and
`break`s out of the loop. -/
def senderLoop : List JsonMsg → SenderOutcome
  | [] => .exhausted
  | msg :: rest =>
    match msg with
    | .malformed => senderLoop rest
    | .obj t sdp? =>
      if t = some answerStr then
        match sdp? with
        | some sdp => .connected sdp rest
        | none => senderLoop rest
      else senderLoop rest

/-- Messages the initiator's loop skips without breaking: everything except
an answer-typed object carrying an `"sdp"` field. -/
def senderSkips : JsonMsg → Bool
  | .obj t (some _) => if t = some answerStr then false else true
  | _ => true

/-- Messages the claims regard as malformed: unparsable JSON, a missing
`type` field, or a `type` outside `{offer, answer}`. -/
def badMsg : JsonMsg → Bool
  | .malformed => true
  | .obj t _ =>
    match t with
    | none => true
    | some ty => if ty = offerStr ∨ ty = answerStr then false else true

/-- The full negotiation round trip of one offer/answer exchange.  Peer A
(initiator, `sender.py`) serializes `{"type": "offer", "sdp": offerSdp}`
(`json.dumps` always produces a well-formed object with both fields); the
relay hands it to peer B (responder, `receiver.py`), which runs
`receiverRun`; B's answer payload `{"type": "answer", "sdp": sent}` is
relayed back and consumed by A's read loop.  Returns A's loop outcome and
B's result. -/
def roundTrip (offerSdp : List Char) (createAnswer : List Char → List Char) :
    SenderOutcome × ReceiverResult :=
  let offerMsg := JsonMsg.obj (some offerStr) (some offerSdp)
  match receiverRun offerMsg createAnswer with
  | .answered remote sent =>
    (senderLoop [JsonMsg.obj (some answerStr) (some sent)],
     ReceiverResult.answered remote sent)
  | .failed => (SenderOutcome.exhausted, ReceiverResult.failed)

/-! ## The track handler (`receiver.py` lines 80-111)

`@pc.on("track") def on_track(track)`: every invocation with
`track.kind == "video"` calls `asyncio.ensure_future(display_video())`,
starting a fresh display task; there is no record of tracks already
handled.  A track is a (label, kind) pair; the handler's effect over a
sequence of event firings is the list of display subscriptions started, in
order. -/

/-- A media track as the handler sees it: an identity label and its
`kind` string. -/
structure Track where
  tid : Nat
  kind : List Char
deriving DecidableEq, Repr

/-- The string `"video"`. -/
def videoStr : List Char := "video".toList

/-- The display subscriptions started by a sequence of `track` event
firings: one per firing whose track has kind `"video"`, none otherwise. -/
def processTrackEvents : List Track → List Track
  | [] => []
  | t :: rest =>
    (if t.kind = videoStr then [t] else []) ++ processTrackEvents rest

/-! ## Helper lemmas about the text layer -/

/-- Joining with a single `'\n'`; `normCRLF` turns `joinCRLF` into this. -/
def joinLF : List (List Char) → List Char
  | [] => []
  | [l] => l
  | l :: l2 :: rest => l ++ '\n' :: joinLF (l2 :: rest)

/-- Checks that a document's every line terminator is a full `"\r\n"`
pair: no bare `'\n'`, no `'\r'` not followed by `'\n'`. -/
def crlfOk : List Char → Bool
  | [] => true
  | [c] => !(c == '\r' || c == '\n')
  | c :: c2 :: rest =>
    if c = '\r' then c2 == '\n' && crlfOk rest
    else if c = '\n' then false
    else crlfOk (c2 :: rest)

/-- A character list with no line-boundary characters. -/
def lineFree (l : List Char) : Prop :=
  ∀ c ∈ l, isLineBreak c = false

theorem lineFree_not_cr {l : List Char} (h : lineFree l) {c : Char}
    (hc : c ∈ l) : c ≠ '\r' := by
  intro heq
  have := h c hc
  subst heq
  simp [isLineBreak] at this

theorem lineFree_not_lf {l : List Char} (h : lineFree l) {c : Char}
    (hc : c ∈ l) : c ≠ '\n' := by
  intro heq
  have := h c hc
  subst heq
  simp [isLineBreak] at this

/-- Every line produced by `splitSingle` is free of boundary characters. -/
theorem splitSingle_free :
    ∀ (s acc : List Char), lineFree acc →
      ∀ l ∈ splitSingle s acc, lineFree l := by
  intro s
  induction s with
  | nil =>
    intro acc hacc l hl
    simp only [splitSingle] at hl
    split at hl
    · simp at hl
    · simp at hl
      subst hl
      intro c hc
      exact hacc c (List.mem_reverse.mp hc)
  | cons c rest ih =>
    intro acc hacc l hl
    simp only [splitSingle] at hl
    split at hl
    · rcases List.mem_cons.mp hl with h1 | h2
      · subst h1
        intro d hd
        exact hacc d (List.mem_reverse.mp hd)
      · exact ih [] (by intro d hd; simp at hd) l h2
    · rename_i hc
      refine ih (c :: acc) ?_ l hl
      intro d hd
      rcases List.mem_cons.mp hd with h1 | h2
      · subst h1; exact Bool.eq_false_iff.mpr hc
      · exact hacc d h2

/-- Every line of `splitlinesPy s` is free of boundary characters. -/
theorem splitlinesPy_free (s : List Char) :
    ∀ l ∈ splitlinesPy s, lineFree l := by
  intro l hl
  exact splitSingle_free (normCRLF s) [] (by intro c hc; simp at hc) l hl

/-- A boundary-free prefix is absorbed into the accumulator. -/
theorem splitSingle_append_free :
    ∀ (l : List Char), lineFree l → ∀ (t acc : List Char),
      splitSingle (l ++ t) acc = splitSingle t (l.reverse ++ acc) := by
  intro l
  induction l with
  | nil => intro _ t acc; simp
  | cons c l2 ih =>
    intro hfree t acc
    have hc : isLineBreak c = false := hfree c (List.mem_cons_self c l2)
    have h2 : lineFree l2 := fun d hd => hfree d (List.mem_cons_of_mem c hd)
    simp only [List.cons_append, splitSingle, hc, Bool.false_eq_true,
      if_false, List.append_eq]
    rw [ih h2 t (c :: acc)]
    simp

/-- A boundary-free prefix passes through `normCRLF` unchanged. -/
theorem normCRLF_append_free :
    ∀ (l : List Char), lineFree l → ∀ (t : List Char),
      normCRLF (l ++ t) = l ++ normCRLF t := by
  intro l
  induction l with
  | nil => intro _ t; simp
  | cons c l2 ih =>
    intro hfree t
    have hc : c ≠ '\r' := lineFree_not_cr hfree (List.mem_cons_self c l2)
    have h2 : lineFree l2 := fun d hd => hfree d (List.mem_cons_of_mem c hd)
    rcases hlt : l2 ++ t with _ | ⟨c2, rest⟩
    · have hl2 : l2 = [] := by
        cases l2 <;> simp_all
      have ht : t = [] := by
        cases t <;> simp_all
      subst hl2; subst ht
      simp [normCRLF]
    · have step : normCRLF (c :: c2 :: rest) = c :: normCRLF (c2 :: rest) := by
        simp only [normCRLF]
        rw [if_neg]
        simp [hc]
      rw [List.cons_append, hlt, step, ← hlt, ih h2 t]
      simp

/-- `normCRLF` collapses a leading `"\r\n"`. -/
theorem normCRLF_crlf (t : List Char) :
    normCRLF ('\r' :: '\n' :: t) = '\n' :: normCRLF t := by
  simp [normCRLF]

/-- `splitSingle` emits the accumulated line at a `'\n'`. -/
theorem splitSingle_newline (t acc : List Char) :
    splitSingle ('\n' :: t) acc = acc.reverse :: splitSingle t [] := by
  simp [splitSingle, isLineBreak]

/-- On boundary-free lines, `normCRLF` rewrites the CRLF join to the LF
join. -/
theorem normCRLF_joinCRLF :
    ∀ (L : List (List Char)), (∀ l ∈ L, lineFree l) →
      normCRLF (joinCRLF L) = joinLF L := by
  intro L
  induction L with
  | nil => intro _; simp [joinCRLF, joinLF, normCRLF]
  | cons l R ih =>
    intro hfree
    have hl : lineFree l := hfree l (List.mem_cons_self l R)
    have hR : ∀ x ∈ R, lineFree x := fun x hx =>
      hfree x (List.mem_cons_of_mem l hx)
    cases R with
    | nil =>
      simp only [joinCRLF, joinLF]
      simpa [normCRLF] using normCRLF_append_free l hl []
    | cons l2 R2 =>
      simp only [joinCRLF, joinLF]
      rw [normCRLF_append_free l hl, normCRLF_crlf,
        ih hR]

/-- Splitting the LF join of boundary-free lines recovers the lines, except
that a trailing empty line is dropped (a trailing boundary produces no
line). -/
theorem splitSingle_joinLF :
    ∀ (L : List (List Char)), (∀ l ∈ L, lineFree l) →
      splitSingle (joinLF L) [] =
        if L.getLast? = some [] then L.dropLast else L := by
  intro L
  induction L with
  | nil => intro _; simp [joinLF, splitSingle]
  | cons l R ih =>
    intro hfree
    have hl : lineFree l := hfree l (List.mem_cons_self l R)
    have hR : ∀ x ∈ R, lineFree x := fun x hx =>
      hfree x (List.mem_cons_of_mem l hx)
    cases R with
    | nil =>
      simp only [joinLF]
      have := splitSingle_append_free l hl [] []
      simp only [List.append_nil] at this
      rw [this]
      cases hcl : l with
      | nil => simp [splitSingle]
      | cons c l2 =>
        simp [splitSingle, List.getLast?]
    | cons l2 R2 =>
      simp only [joinLF]
      have := splitSingle_append_free l hl ('\n' :: joinLF (l2 :: R2)) []
      simp only [List.append_nil] at this
      rw [this, splitSingle_newline]
      simp only [List.reverse_reverse]
      rw [ih hR]
      have hgl : (l :: l2 :: R2).getLast? = (l2 :: R2).getLast? := by
        simp [List.getLast?_cons_cons]
      have hdl : (l :: l2 :: R2).dropLast = l :: (l2 :: R2).dropLast := by
        simp [List.dropLast_cons₂]
      by_cases hcase : (l2 :: R2).getLast? = some ([] : List Char)
      · rw [if_pos hcase, hgl, if_pos hcase, hdl]
      · rw [if_neg hcase, hgl, if_neg hcase]

/-- Splitting the CRLF join of boundary-free lines recovers the lines,
except that a trailing empty line is dropped. -/
theorem splitlinesPy_joinCRLF (L : List (List Char))
    (hfree : ∀ l ∈ L, lineFree l) :
    splitlinesPy (joinCRLF L) =
      if L.getLast? = some [] then L.dropLast else L := by
  unfold splitlinesPy
  rw [normCRLF_joinCRLF L hfree, splitSingle_joinLF L hfree]

/-- A boundary-free prefix does not affect CRLF discipline. -/
theorem crlfOk_append_free :
    ∀ (l : List Char), lineFree l → ∀ (t : List Char),
      crlfOk (l ++ t) = crlfOk t := by
  intro l
  induction l with
  | nil => intro _ t; simp
  | cons c l2 ih =>
    intro hfree t
    have hcr : c ≠ '\r' := lineFree_not_cr hfree (List.mem_cons_self c l2)
    have hlf : c ≠ '\n' := lineFree_not_lf hfree (List.mem_cons_self c l2)
    have h2 : lineFree l2 := fun d hd => hfree d (List.mem_cons_of_mem c hd)
    rcases hlt : l2 ++ t with _ | ⟨c2, rest⟩
    · have hl2 : l2 = [] := by cases l2 <;> simp_all
      have ht : t = [] := by cases t <;> simp_all
      subst hl2; subst ht
      simp [crlfOk, hcr, hlf]
    · have : crlfOk (c :: (l2 ++ t)) = crlfOk (l2 ++ t) := by
        rw [hlt]
        simp only [crlfOk]
        rw [if_neg hcr, if_neg hlf]
      rw [List.cons_append, this, ih h2 t]

/-- The CRLF join of boundary-free lines is CRLF-disciplined. -/
theorem crlfOk_joinCRLF :
    ∀ (L : List (List Char)), (∀ l ∈ L, lineFree l) →
      crlfOk (joinCRLF L) = true := by
  intro L
  induction L with
  | nil => intro _; simp [joinCRLF, crlfOk]
  | cons l R ih =>
    intro hfree
    have hl : lineFree l := hfree l (List.mem_cons_self l R)
    have hR : ∀ x ∈ R, lineFree x := fun x hx =>
      hfree x (List.mem_cons_of_mem l hx)
    cases R with
    | nil =>
      simp only [joinCRLF]
      have := crlfOk_append_free l hl []
      simp only [List.append_nil] at this
      rw [this]
      simp [crlfOk]
    | cons l2 R2 =>
      simp only [joinCRLF]
      rw [crlfOk_append_free l hl]
      simp only [crlfOk]
      simpa using ih hR

/-! ## Helper lemmas about the room registry -/

theorem joinOp_stateOf (c : Nat) (live : List Nat) :
    joinOp c (stateOf live) = stateOf (live ++ [c]) := by
  cases live <;> simp [joinOp, stateOf]

theorem leaveOp_stateOf (c : Nat) (live : List Nat) (hc : c ∈ live) :
    leaveOp c (stateOf live) = .ok (stateOf (live.erase c)) := by
  have hne : live ≠ [] := by rintro rfl; simp at hc
  have hst : stateOf live = some live := by
    simp [stateOf, List.isEmpty_iff, hne]
  have hcont : live.contains c = true := by simpa using hc
  rw [hst]
  simp only [leaveOp, hcont, if_true]
  cases h : (live.erase c).isEmpty
  · simp [stateOf, h]
  · simp [stateOf, h]

/-- A channel that has ever joined never joins again in a well-formed
sequence. -/
theorem wfOps_no_rejoin :
    ∀ (ops : List Op) (live used : List Nat) (c : Nat),
      wfOps ops live used = true → c ∈ used → Op.join c ∉ ops := by
  intro ops
  induction ops with
  | nil => intro live used c _ _; simp
  | cons op rest ih =>
    intro live used c hwf hc
    cases op with
    | join d =>
      simp only [wfOps, Bool.and_eq_true, Bool.not_eq_true'] at hwf
      obtain ⟨hd, hwf2⟩ := hwf
      simp only [List.mem_cons, not_or]
      constructor
      · intro heq
        rw [Op.join.injEq] at heq
        subst heq
        have hcu : c ∉ used := by simpa using hd
        exact hcu hc
      · exact ih (live ++ [d]) (d :: used) c hwf2 (List.mem_cons_of_mem d hc)
    | leave d =>
      simp only [wfOps, Bool.and_eq_true] at hwf
      simp only [List.mem_cons, not_or]
      exact ⟨by simp, ih (live.erase d) used c hwf.2 hc⟩

/-- Running a well-formed sequence never raises and leaves the registry in
the state determined by the surviving members; the member list stays
duplicate-free. -/
theorem runOps_wf :
    ∀ (ops : List Op) (live used : List Nat),
      wfOps ops live used = true → live.Nodup → (∀ d ∈ live, d ∈ used) →
      runOps ops (stateOf live) = .ok (stateOf (survivors ops live)) ∧
        (survivors ops live).Nodup := by
  intro ops
  induction ops with
  | nil => intro live used _ hnd _; exact ⟨rfl, hnd⟩
  | cons op rest ih =>
    intro live used hwf hnd hsub
    cases op with
    | join c =>
      simp only [wfOps, Bool.and_eq_true, Bool.not_eq_true'] at hwf
      obtain ⟨hc, hwf2⟩ := hwf
      have hcu : c ∉ used := by simpa using hc
      have hcl : c ∉ live := fun h => hcu (hsub c h)
      have hnd2 : (live ++ [c]).Nodup := by
        simp [List.nodup_append, hnd, hcl]
      have hsub2 : ∀ d ∈ live ++ [c], d ∈ c :: used := by
        intro d hd
        rcases List.mem_append.mp hd with h | h
        · exact List.mem_cons_of_mem c (hsub d h)
        · simp at h; subst h; exact List.mem_cons_self _ _
      have := ih (live ++ [c]) (c :: used) hwf2 hnd2 hsub2
      simpa [runOps, survivors, joinOp_stateOf] using this
    | leave c =>
      simp only [wfOps, Bool.and_eq_true] at hwf
      obtain ⟨hc, hwf2⟩ := hwf
      have hcl : c ∈ live := by simpa using hc
      have hnd2 : (live.erase c).Nodup := hnd.erase c
      have hsub2 : ∀ d ∈ live.erase c, d ∈ used := fun d hd =>
        hsub d (List.erase_subset _ _ hd)
      have := ih (live.erase c) used hwf2 hnd2 hsub2
      simpa [runOps, survivors, leaveOp_stateOf c live hcl] using this

/-- Characterization of the surviving members of a well-formed sequence:
exactly the channels that join (or start live) and never leave. -/
theorem survivors_mem :
    ∀ (ops : List Op) (live used : List Nat) (c : Nat),
      wfOps ops live used = true → live.Nodup → (∀ d ∈ live, d ∈ used) →
      (c ∈ survivors ops live ↔
        (Op.join c ∈ ops ∨ c ∈ live) ∧ Op.leave c ∉ ops) := by
  intro ops
  induction ops with
  | nil => intro live used c _ _ _; simp [survivors]
  | cons op rest ih =>
    intro live used c hwf hnd hsub
    cases op with
    | join d =>
      simp only [wfOps, Bool.and_eq_true, Bool.not_eq_true'] at hwf
      obtain ⟨hd, hwf2⟩ := hwf
      have hdu : d ∉ used := by simpa using hd
      have hdl : d ∉ live := fun h => hdu (hsub d h)
      have hnd2 : (live ++ [d]).Nodup := by
        simp [List.nodup_append, hnd, hdl]
      have hsub2 : ∀ e ∈ live ++ [d], e ∈ d :: used := by
        intro e he
        rcases List.mem_append.mp he with h | h
        · exact List.mem_cons_of_mem d (hsub e h)
        · simp at h; subst h; exact List.mem_cons_self _ _
      have hIH := ih (live ++ [d]) (d :: used) c hwf2 hnd2 hsub2
      simp only [survivors, List.mem_cons, List.mem_append,
        List.mem_singleton, List.mem_nil_iff, or_false, not_or] at hIH ⊢
      rw [hIH]
      constructor
      · rintro ⟨h1, h2⟩
        refine ⟨?_, fun heq => Op.noConfusion heq, h2⟩
        rcases h1 with h | h | heq
        · exact Or.inl (Or.inr h)
        · exact Or.inr h
        · exact Or.inl (Or.inl (by rw [heq]))
      · rintro ⟨h1, -, h3⟩
        refine ⟨?_, h3⟩
        rcases h1 with (heq | h) | h
        · rw [Op.join.injEq] at heq
          exact Or.inr (Or.inr heq)
        · exact Or.inl h
        · exact Or.inr (Or.inl h)
    | leave d =>
      simp only [wfOps, Bool.and_eq_true] at hwf
      obtain ⟨hd, hwf2⟩ := hwf
      have hdl : d ∈ live := by simpa using hd
      have hdu : d ∈ used := hsub d hdl
      have hnorej : Op.join d ∉ rest :=
        wfOps_no_rejoin rest (live.erase d) used d hwf2 hdu
      have hnd2 : (live.erase d).Nodup := hnd.erase d
      have hsub2 : ∀ e ∈ live.erase d, e ∈ used := fun e he =>
        hsub e (List.erase_subset _ _ he)
      have hIH := ih (live.erase d) used c hwf2 hnd2 hsub2
      have hmem : c ∈ live.erase d ↔ c ≠ d ∧ c ∈ live :=
        hnd.mem_erase_iff
      simp only [survivors, List.mem_cons, not_or, Op.leave.injEq] at hIH ⊢
      rw [hIH, hmem]
      constructor
      · rintro ⟨h1, h2⟩
        have hcd : c ≠ d := by
          rcases h1 with h | ⟨h, -⟩
          · intro heq; subst heq; exact hnorej h
          · exact h
        refine ⟨?_, hcd, h2⟩
        rcases h1 with h | ⟨-, h⟩
        · exact Or.inl (Or.inr h)
        · exact Or.inr h
      · rintro ⟨h1, h2, h3⟩
        refine ⟨?_, h3⟩
        rcases h1 with (heq | h) | h
        · exact Op.noConfusion heq
        · exact Or.inl h
        · exact Or.inr ⟨h2, h⟩

/-! ## Helper lemmas about the broadcast loop -/

/-- Closed form of the relay's send loop: the receivers are the non-sender
members up to (and excluding) the first failing send, and the loop
completes iff every non-sender send succeeds. -/
theorem deliverLoop_spec :
    ∀ (members : List Nat) (s : Nat) (ok : Nat → Bool),
      deliverLoop members s ok =
        ((members.filter fun c => c != s).takeWhile ok,
         (members.filter fun c => c != s).all ok) := by
  intro members
  induction members with
  | nil => intro s ok; simp [deliverLoop]
  | cons c rest ih =>
    intro s ok
    by_cases hcs : c = s
    · subst hcs
      simp [deliverLoop, List.filter_cons, ih]
    · cases hok : ok c
      · simp [deliverLoop, hcs, hok, List.filter_cons, List.takeWhile_cons,
          List.all_cons]
      · simp [deliverLoop, hcs, hok, List.filter_cons, List.takeWhile_cons,
          List.all_cons, ih]

/-! ## Helper lemmas about the peer state machines -/

/-- The initiator's loop steps past any message it does not `break` on. -/
theorem senderLoop_skip (m : JsonMsg) (h : senderSkips m = true)
    (rest : List JsonMsg) : senderLoop (m :: rest) = senderLoop rest := by
  cases m with
  | malformed => simp [senderLoop]
  | obj t sdp? =>
    cases sdp? with
    | none =>
      simp only [senderLoop]
      split <;> rfl
    | some sdp =>
      simp only [senderSkips] at h
      have hne : t ≠ some answerStr := by
        intro heq
        rw [if_pos heq] at h
        exact Bool.false_ne_true h
      simp [senderLoop, hne]

/-- Every message the claims treat as malformed is one the initiator's
loop skips. -/
theorem badMsg_senderSkips (m : JsonMsg) (h : badMsg m = true) :
    senderSkips m = true := by
  cases m with
  | malformed => rfl
  | obj t sdp? =>
    cases sdp? with
    | none => rfl
    | some sdp =>
      cases t with
      | none => rfl
      | some ty =>
        simp only [badMsg] at h
        have hne : ¬(ty = offerStr ∨ ty = answerStr) := by
          intro hor
          rw [if_pos hor] at h
          exact Bool.false_ne_true h
        simp only [senderSkips]
        rw [if_neg]
        intro heq
        rw [Option.some.injEq] at heq
        exact hne (Or.inr heq)

/-! ## The claims -/

/-- C1: Negotiation round trip — after the initiator's offer is relayed to
the responder and the responder's answer is relayed back, both peers reach
their connected state: the responder answers after installing the filtered
offer as its remote description, and the initiator installs the answer SDP
as its remote description and exits its read loop. -/
theorem C1_negotiation_round_trip (offerSdp : List Char)
    (createAnswer : List Char → List Char) :
    roundTrip offerSdp createAnswer =
      (SenderOutcome.connected (createAnswer (remove_rtx_from_sdp offerSdp)) [],
       ReceiverResult.answered (remove_rtx_from_sdp offerSdp)
         (createAnswer (remove_rtx_from_sdp offerSdp))) := by
  simp [roundTrip, receiverRun, senderLoop]

/-- C2: For every room member list and message from a member channel, when
every send succeeds the relay delivers the message to exactly the members
of that room other than the sender (in room order); the sender receives
nothing, and no channel outside the room's member list receives
anything. -/
theorem C2_broadcast_except_sender (members : List Nat) (s : Nat)
    (ok : Nat → Bool) (hok : ∀ c ∈ members, c ≠ s → ok c = true) :
    (deliverLoop members s ok).1 = members.filter (fun c => c != s) ∧
      s ∉ (deliverLoop members s ok).1 ∧
      ∀ c, c ∈ (deliverLoop members s ok).1 → c ∈ members := by
  have hall : ∀ c ∈ members.filter (fun c => c != s), ok c = true := by
    intro c hc
    have h := List.mem_filter.mp hc
    exact hok c h.1 (by simpa using h.2)
  have heq : (deliverLoop members s ok).1 =
      members.filter (fun c => c != s) := by
    rw [deliverLoop_spec]
    exact List.takeWhile_eq_self_iff.mpr hall
  refine ⟨heq, ?_, ?_⟩
  · rw [heq]
    intro hmem
    have h := (List.mem_filter.mp hmem).2
    simp at h
  · intro c hc
    rw [heq] at hc
    exact (List.mem_filter.mp hc).1

/-- Witness for C2 at a concrete room: members `[1, 2, 3]`, sender `1`,
all sends succeeding. -/
theorem C2_broadcast_except_sender_witness :
    (deliverLoop [1, 2, 3] 1 (fun _ => true)).1 =
        ([1, 2, 3].filter (fun c => c != 1)) ∧
      1 ∉ (deliverLoop [1, 2, 3] 1 (fun _ => true)).1 ∧
      ∀ c, c ∈ (deliverLoop [1, 2, 3] 1 (fun _ => true)).1 →
        c ∈ [1, 2, 3] :=
  C2_broadcast_except_sender [1, 2, 3] 1 (fun _ => true)
    (by intro c _ _; rfl)

/-- C3: For every well-formed join/leave sequence on a room, running it
never raises; the final registry state is determined by the surviving
members, which are exactly the channels whose join is not followed by a
leave; a room whose membership reaches zero is absent from the registry
(never present with an empty member list); and the first join creates the
room's entry with that one member. -/
theorem C3_registry_join_leave (ops : List Op)
    (hwf : wfOps ops [] [] = true) :
    runOps ops none = .ok (stateOf (survivors ops [])) ∧
      (∀ c, c ∈ survivors ops [] ↔
        Op.join c ∈ ops ∧ Op.leave c ∉ ops) ∧
      (∀ l, runOps ops none = .ok (some l) → l ≠ []) ∧
      (∀ c, joinOp c none = some [c]) := by
  have h1 := runOps_wf ops [] [] hwf (by simp) (by simp)
  have hst : stateOf ([] : List Nat) = none := by simp [stateOf]
  rw [hst] at h1
  refine ⟨h1.1, ?_, ?_, ?_⟩
  · intro c
    have h := survivors_mem ops [] [] c hwf (by simp) (by simp)
    simpa using h
  · intro l hl
    rw [h1.1] at hl
    simp only [stateOf] at hl
    split at hl
    · simp at hl
    · rename_i hne
      obtain rfl : survivors ops [] = l := by simpa using hl
      intro h0
      rw [h0] at hne
      simp at hne
  · intro c
    simp [joinOp]

/-- Witness for C3 at the concrete sequence: channel 1 joins, channel 2
joins, channel 1 leaves. -/
theorem C3_registry_join_leave_witness :
    runOps [Op.join 1, Op.join 2, Op.leave 1] none =
        .ok (stateOf (survivors [Op.join 1, Op.join 2, Op.leave 1] [])) ∧
      (∀ c, c ∈ survivors [Op.join 1, Op.join 2, Op.leave 1] [] ↔
        Op.join c ∈ [Op.join 1, Op.join 2, Op.leave 1] ∧
        Op.leave c ∉ [Op.join 1, Op.join 2, Op.leave 1]) ∧
      (∀ l, runOps [Op.join 1, Op.join 2, Op.leave 1] none =
        .ok (some l) → l ≠ []) ∧
      (∀ c, joinOp c none = some [c]) :=
  C3_registry_join_leave [Op.join 1, Op.join 2, Op.leave 1] (by decide)

/-- C4: Whichever exception ends the relay handler's read loop — graceful
disconnect, any other error, or cancellation — the `finally` block removes
the channel from its room's member set exactly once: the removal count is
1, and the channel is no longer a member afterwards. -/
theorem C4_cleanup_exactly_once (c : Nat) (l : List Nat) (e : Exc)
    (hc : c ∈ l) (hnd : l.Nodup) :
    ∃ st2, websocket_endpoint_exit c (some l) e =
        .ok (st2, 1, if catchesExc e then none else some e) ∧
      c ∉ st2.getD [] := by
  have hcont : l.contains c = true := by simpa using hc
  have hcount : leaveCount c (some l) = 1 := by simp [leaveCount, hc]
  have hnotin : c ∉ l.erase c := by
    intro h
    rw [hnd.mem_erase_iff] at h
    exact h.1 rfl
  refine ⟨if (l.erase c).isEmpty then none else some (l.erase c), ?_, ?_⟩
  · cases h : (l.erase c).isEmpty <;>
      simp [websocket_endpoint_exit, leaveOp, hcont, h, hcount, leaveCount,
        hc]
  · cases h : (l.erase c).isEmpty <;> simp [h, hnotin]

/-- Witness for C4: channel 1 in room `[1, 2]`, graceful disconnect. -/
theorem C4_cleanup_exactly_once_witness :
    ∃ st2, websocket_endpoint_exit 1 (some [1, 2]) Exc.disconnect =
        .ok (st2, 1,
          if catchesExc Exc.disconnect then none else some Exc.disconnect) ∧
      1 ∉ st2.getD [] :=
  C4_cleanup_exactly_once 1 [1, 2] Exc.disconnect (by decide) (by decide)

/-- C5 counterexample: delivery is not fire-and-forget.  With room members
`[1, 2, 3]` and sender `1`, a failing send to member `2` aborts the loop,
so member `3` — a non-sender member whose own send would succeed —
receives nothing. -/
theorem C5_counterexample :
    (deliverLoop [1, 2, 3] 1 (fun c => c != 2)).1 = [] ∧
      (deliverLoop [1, 2, 3] 1 (fun c => c != 2)).2 = false ∧
      (3 : Nat) ∈ [1, 2, 3] ∧ (3 : Nat) ≠ 1 ∧
      (fun c => c != 2) 3 = true ∧
      (3 : Nat) ∉ (deliverLoop [1, 2, 3] 1 (fun c => c != 2)).1 := by
  decide

/-- C5 amended: delivery is sequential — the message reaches exactly the
non-sender members up to (and excluding) the first failing send, which
aborts delivery to all remaining members, and the loop completes iff every
non-sender send succeeds. -/
theorem C5_sequential_delivery (members : List Nat) (s : Nat)
    (ok : Nat → Bool) :
    deliverLoop members s ok =
      ((members.filter fun c => c != s).takeWhile ok,
       (members.filter fun c => c != s).all ok) :=
  deliverLoop_spec members s ok

/-- C6 counterexample: the SDP filter is not idempotent on every input —
on the document `"\n\n"` (two empty lines) one application yields
`"\r\n"` while a second application yields `""`. -/
theorem C6_counterexample :
    remove_rtx_from_sdp (remove_rtx_from_sdp "\n\n".toList) ≠
      remove_rtx_from_sdp "\n\n".toList := by
  decide

/-- C6 amended: the SDP filter is idempotent on every document whose kept
line list does not end in an empty line (in particular, any document not
ending in a blank line, as real SDP); and it never removes a line
unrelated to the retransmission codec: every dropped line contains
`"video/rtx"` or `"apt="`. -/
theorem C6_filter_idempotent (s : List Char) :
    ((keptLines s).getLast? ≠ some [] →
      remove_rtx_from_sdp (remove_rtx_from_sdp s) = remove_rtx_from_sdp s) ∧
      ∀ l ∈ splitlinesPy s, l ∉ keptLines s →
        (containsSub rtxPat l = true ∨ containsSub aptPat l = true) := by
  constructor
  · intro hlast
    have hfree : ∀ l ∈ keptLines s, lineFree l := fun l hl =>
      splitlinesPy_free s l (List.mem_filter.mp hl).1
    have hsplit : splitlinesPy (remove_rtx_from_sdp s) = keptLines s := by
      unfold remove_rtx_from_sdp
      rw [splitlinesPy_joinCRLF (keptLines s) hfree]
      exact if_neg hlast
    have h0 : keptLines (remove_rtx_from_sdp s) =
        (splitlinesPy (remove_rtx_from_sdp s)).filter
          (fun line => !(rtxRelated line)) := rfl
    rw [hsplit] at h0
    have hkept : keptLines (remove_rtx_from_sdp s) = keptLines s := by
      rw [h0]
      apply List.filter_eq_self.mpr
      intro l hl
      exact (List.mem_filter.mp hl).2
    show joinCRLF (keptLines (remove_rtx_from_sdp s)) = remove_rtx_from_sdp s
    rw [hkept]
    rfl
  · intro l hl hnot
    by_contra hcon
    push_neg at hcon
    apply hnot
    apply List.mem_filter.mpr
    refine ⟨hl, ?_⟩
    have e1 : containsSub rtxPat l = false :=
      Bool.eq_false_iff.mpr hcon.1
    have e2 : containsSub aptPat l = false :=
      Bool.eq_false_iff.mpr hcon.2
    simp [rtxRelated, e1, e2]

/-- Witness for C6 at a concrete SDP whose last line is nonempty; the
idempotence hypothesis is discharged by evaluation. -/
theorem C6_filter_idempotent_witness :
    remove_rtx_from_sdp
        (remove_rtx_from_sdp "v=0\r\na=fmtp:97 apt=96\r\na=sendonly".toList) =
      remove_rtx_from_sdp "v=0\r\na=fmtp:97 apt=96\r\na=sendonly".toList :=
  (C6_filter_idempotent "v=0\r\na=fmtp:97 apt=96\r\na=sendonly".toList).1
    (by decide)

/-- C7 counterexample: the filter does not preserve the document's
line-ending convention — the input `"a\nb"` uses LF endings and contains
no CR, but the output contains a CR (it is rejoined with CRLF). -/
theorem C7_counterexample :
    ('\n' ∈ "a\nb".toList ∧ '\r' ∉ "a\nb".toList) ∧
      '\r' ∈ remove_rtx_from_sdp "a\nb".toList := by
  decide

/-- C7 amended: the filter preserves the relative order of all retained
lines (the kept lines form a sublist of the input's lines), but it always
rejoins with CRLF regardless of the input's convention: every line
terminator of the output is a full `"\r\n"` pair, so an LF document is
converted to CRLF. -/
theorem C7_order_and_crlf (s : List Char) :
    List.Sublist (keptLines s) (splitlinesPy s) ∧
      crlfOk (remove_rtx_from_sdp s) = true := by
  constructor
  · exact List.filter_sublist (splitlinesPy s)
  · apply crlfOk_joinCRLF
    intro l hl
    exact splitlinesPy_free s l (List.mem_filter.mp hl).1

/-- C8 counterexample: the initiator does not terminate its session on
malformed input — after receiving malformed JSON it continues its read
loop, and a subsequent well-formed answer still brings it to the
connected state. -/
theorem C8_counterexample :
    senderLoop [JsonMsg.malformed,
        JsonMsg.obj (some answerStr) (some ['x'])] =
      SenderOutcome.connected ['x'] [] := by
  decide

/-- C8 amended: a message that is malformed JSON, lacks the `type` field,
or has a `type` outside offer/answer drives the responder's one-shot state
machine to `failed` (never to an answered/connected state), while the
initiator merely logs and skips such a message, continuing its loop on the
rest of the stream. -/
theorem C8_malformed_handling (m : JsonMsg) (hm : badMsg m = true)
    (f : List Char → List Char) (rest : List JsonMsg) :
    receiverRun m f = ReceiverResult.failed ∧
      senderLoop (m :: rest) = senderLoop rest := by
  constructor
  · cases m with
    | malformed => rfl
    | obj t sdp? =>
      cases t with
      | none => simp [receiverRun]
      | some ty =>
        have hor : ¬(ty = offerStr ∨ ty = answerStr) := by
          intro h
          simp [badMsg, h] at hm
        have hne : ¬(some ty = some offerStr) := by
          intro h
          rw [Option.some.injEq] at h
          exact hor (Or.inl h)
        simp only [receiverRun]
        rw [if_neg hne]
  · exact senderLoop_skip m (badMsg_senderSkips m hm) rest

/-- Witness for C8 at the concrete malformed message. -/
theorem C8_malformed_handling_witness :
    receiverRun JsonMsg.malformed (fun x => x) = ReceiverResult.failed ∧
      senderLoop [JsonMsg.malformed] = senderLoop [] :=
  C8_malformed_handling JsonMsg.malformed (by decide) (fun x => x) []

/-- C9 counterexample: the track handler has no duplicate guard — when the
track event fires twice for the same video track, two display
subscriptions are started. -/
theorem C9_counterexample :
    processTrackEvents [⟨0, videoStr⟩, ⟨0, videoStr⟩] =
        [⟨0, videoStr⟩, ⟨0, videoStr⟩] ∧
      List.count (⟨0, videoStr⟩ : Track)
        (processTrackEvents [⟨0, videoStr⟩, ⟨0, videoStr⟩]) = 2 := by
  decide

/-- C9 amended: the handler starts exactly one display subscription per
video-kind track event invocation — the number of subscriptions started
for a track equals the number of event firings carrying it (zero for
non-video kinds), so a repeated event for the same track starts a second
subscription. -/
theorem C9_one_subscription_per_event (events : List Track) (t : Track) :
    List.count t (processTrackEvents events) =
      if t.kind = videoStr then List.count t events else 0 := by
  induction events with
  | nil => simp [processTrackEvents]
  | cons e rest ih =>
    by_cases he : e.kind = videoStr <;> by_cases ht : t.kind = videoStr <;>
      by_cases hte : t = e <;>
      simp_all [processTrackEvents, List.count_append, List.count_cons]

/-- C10 counterexample: an answer-typed message without an `"sdp"` field
does not end the initiator's loop — the message after the first
answer-typed one is still read and processed, contradicting a permanent
exit at the first answer-typed message. -/
theorem C10_counterexample :
    msgType (JsonMsg.obj (some answerStr) none) = some answerStr ∧
      senderLoop [JsonMsg.obj (some answerStr) none,
          JsonMsg.obj (some answerStr) (some ['x'])] =
        SenderOutcome.connected ['x'] [] := by
  decide

/-- C10 amended: the initiator exits its read loop permanently at the
first message whose type is `answer` and which carries an `"sdp"` field:
all earlier messages are skipped, the answer SDP is installed as the
remote description, and every later message is left unread (answer-typed
messages lacking `"sdp"` are skipped like any other non-matching
message). -/
theorem C10_loop_exit_on_answer (pre : List JsonMsg) (sdp : List Char)
    (post : List JsonMsg) (hpre : ∀ m ∈ pre, senderSkips m = true) :
    senderLoop (pre ++ JsonMsg.obj (some answerStr) (some sdp) :: post) =
      SenderOutcome.connected sdp post := by
  induction pre with
  | nil => simp [senderLoop]
  | cons m pre2 ih =>
    rw [List.cons_append,
      senderLoop_skip m (hpre m (List.mem_cons_self m pre2))]
    exact ih (fun x hx => hpre x (List.mem_cons_of_mem m hx))

/-- Witness for C10: one skipped malformed message before the answer, one
unread offer-typed message after it. -/
theorem C10_loop_exit_on_answer_witness :
    senderLoop ([JsonMsg.malformed] ++
        JsonMsg.obj (some answerStr) (some ['y']) ::
          [JsonMsg.obj (some offerStr) none]) =
      SenderOutcome.connected ['y'] [JsonMsg.obj (some offerStr) none] :=
  C10_loop_exit_on_answer [JsonMsg.malformed] ['y']
    [JsonMsg.obj (some offerStr) none] (by decide)

end NurdViewer
